import Mathlib

/-!
Shallow embedding of the binary-outcome constant-product AMM in
`src/server/src/market.ts` (class `PredictionMarket`, class `MarketManager`)
and of the HTTP read wrapper in the server entry file.

JavaScript numbers are modelled as exact rationals (`ℚ`); the spec's
"within a small fixed tolerance" statements are settled by proving the
exact-arithmetic identity, which lies within every tolerance.
JavaScript `Map` objects are modelled as association lists with
insert-or-replace `set` semantics.  The TypeScript methods throw; a throw
happens before any mutation, so each mutating operation is modelled as a
function into `Except MarketError (newState × result)`: a failure carries
no new state, and the caller keeps the unchanged old state.
-/

/-- One JS `Map.get`: first binding for the key, if any. -/
def mapGet {α : Type} (l : List (String × α)) (key : String) : Option α :=
  (l.find? (fun q => q.1 == key)).map Prod.snd

/-- One JS `Map.set`: replace the binding for the key, or append it. -/
def mapSet {α : Type} (l : List (String × α)) (key : String) (v : α) :
    List (String × α) :=
  match l with
  | [] => [(key, v)]
  | (u, w) :: rest =>
      if u == key then (u, v) :: rest else (u, w) :: mapSet rest key v

/-- `Position` from market.ts (lines 23-28). -/
structure Position where
  userId : String
  whiteTokens : ℚ
  blackTokens : ℚ
  totalSpent : ℚ
deriving DecidableEq, Repr

/-- The `"white" | "black" | "draw"` string union used for outcomes. -/
inductive Winner where
  | white
  | black
  | draw
deriving DecidableEq, Repr

/-- The errors thrown by `PredictionMarket` methods. -/
inductive MarketError where
  | marketResolved
  | invalidAmount
  | alreadyResolved
deriving DecidableEq, Repr

/-- Mutable state of the `PredictionMarket` class (lines 42-50). -/
structure PredictionMarket where
  gameId : String
  whitePool : ℚ
  blackPool : ℚ
  k : ℚ
  positions : List (String × Position)
  totalVolume : ℚ
  resolved : Bool
  winner : Option Winner
deriving DecidableEq, Repr

/-- `OrderBookLevel` (lines 30-33). -/
structure OrderBookLevel where
  price : ℚ
  size : ℚ
deriving DecidableEq, Repr

/-- `OrderBook` (lines 35-40). -/
structure OrderBook where
  whiteBids : List OrderBookLevel
  whiteAsks : List OrderBookLevel
  blackBids : List OrderBookLevel
  blackAsks : List OrderBookLevel
deriving DecidableEq, Repr

/-- Result record of `calculateBuyWhite` / `calculateBuyBlack`. -/
structure BuyQuote where
  tokensOut : ℚ
  avgPrice : ℚ
  priceImpact : ℚ
deriving DecidableEq, Repr

namespace PredictionMarket

/-- The constructor (lines 52-58): equal pools, `k = whitePool * blackPool`. -/
def create (gameId : String) (initialLiquidity : ℚ) : PredictionMarket :=
  { gameId := gameId
    whitePool := initialLiquidity
    blackPool := initialLiquidity
    k := initialLiquidity * initialLiquidity
    positions := []
    totalVolume := 0
    resolved := false
    winner := none }

/-- `getWhitePrice` (lines 61-63). -/
def getWhitePrice (m : PredictionMarket) : ℚ :=
  m.blackPool / (m.whitePool + m.blackPool)

/-- `getBlackPrice` (lines 65-67). -/
def getBlackPrice (m : PredictionMarket) : ℚ :=
  m.whitePool / (m.whitePool + m.blackPool)

/-- `calculateBuyWhite` (lines 70-82). -/
def calculateBuyWhite (m : PredictionMarket) (usdcAmount : ℚ) : BuyQuote :=
  let priceBefore := m.getWhitePrice
  let newBlackPool := m.blackPool + usdcAmount
  let newWhitePool := m.k / newBlackPool
  let tokensOut := m.whitePool - newWhitePool
  let avgPrice := usdcAmount / tokensOut
  let priceAfter := newBlackPool / (newWhitePool + newBlackPool)
  { tokensOut := tokensOut
    avgPrice := avgPrice
    priceImpact := (priceAfter - priceBefore) / priceBefore }

/-- `calculateBuyBlack` (lines 84-96). -/
def calculateBuyBlack (m : PredictionMarket) (usdcAmount : ℚ) : BuyQuote :=
  let priceBefore := m.getBlackPrice
  let newWhitePool := m.whitePool + usdcAmount
  let newBlackPool := m.k / newWhitePool
  let tokensOut := m.blackPool - newBlackPool
  let avgPrice := usdcAmount / tokensOut
  let priceAfter := newWhitePool / (newBlackPool + newWhitePool)
  { tokensOut := tokensOut
    avgPrice := avgPrice
    priceImpact := (priceAfter - priceBefore) / priceBefore }

/-- `buyWhite` (lines 99-116).  Returns the updated market together with
`tokensOut` and the new white price; the two throws become errors. -/
def buyWhite (m : PredictionMarket) (userId : String) (usdcAmount : ℚ) :
    Except MarketError (PredictionMarket × ℚ × ℚ) :=
  if m.resolved then Except.error MarketError.marketResolved
  else if usdcAmount ≤ 0 then Except.error MarketError.invalidAmount
  else
    let tokensOut := (m.calculateBuyWhite usdcAmount).tokensOut
    let position0 := (mapGet m.positions userId).getD
      { userId := userId, whiteTokens := 0, blackTokens := 0, totalSpent := 0 }
    let position1 := { position0 with
      whiteTokens := position0.whiteTokens + tokensOut
      totalSpent := position0.totalSpent + usdcAmount }
    let m1 := { m with
      blackPool := m.blackPool + usdcAmount
      whitePool := m.whitePool - tokensOut
      positions := mapSet m.positions userId position1
      totalVolume := m.totalVolume + usdcAmount }
    Except.ok (m1, tokensOut, m1.getWhitePrice)

/-- `buyBlack` (lines 118-135). -/
def buyBlack (m : PredictionMarket) (userId : String) (usdcAmount : ℚ) :
    Except MarketError (PredictionMarket × ℚ × ℚ) :=
  if m.resolved then Except.error MarketError.marketResolved
  else if usdcAmount ≤ 0 then Except.error MarketError.invalidAmount
  else
    let tokensOut := (m.calculateBuyBlack usdcAmount).tokensOut
    let position0 := (mapGet m.positions userId).getD
      { userId := userId, whiteTokens := 0, blackTokens := 0, totalSpent := 0 }
    let position1 := { position0 with
      blackTokens := position0.blackTokens + tokensOut
      totalSpent := position0.totalSpent + usdcAmount }
    let m1 := { m with
      whitePool := m.whitePool + usdcAmount
      blackPool := m.blackPool - tokensOut
      positions := mapSet m.positions userId position1
      totalVolume := m.totalVolume + usdcAmount }
    Except.ok (m1, tokensOut, m1.getBlackPrice)

/-- `getOrderBook` (lines 138-158): the loop body at `i = j + 1` for
`j = 0 .. depth - 1`, with `amount = stepSize * i`. -/
def getOrderBook (m : PredictionMarket) (depth : ℕ) (stepSize : ℚ) : OrderBook :=
  { whiteBids := (List.range depth).map (fun (j : ℕ) =>
      { price := (m.calculateBuyWhite (stepSize * ((j : ℚ) + 1))).avgPrice
        size := stepSize * ((j : ℚ) + 1) })
    whiteAsks := (List.range depth).map (fun (j : ℕ) =>
      { price := 1 - (m.calculateBuyBlack (stepSize * ((j : ℚ) + 1))).avgPrice
        size := stepSize * ((j : ℚ) + 1) })
    blackBids := (List.range depth).map (fun (j : ℕ) =>
      { price := (m.calculateBuyBlack (stepSize * ((j : ℚ) + 1))).avgPrice
        size := stepSize * ((j : ℚ) + 1) })
    blackAsks := (List.range depth).map (fun (j : ℕ) =>
      { price := 1 - (m.calculateBuyWhite (stepSize * ((j : ℚ) + 1))).avgPrice
        size := stepSize * ((j : ℚ) + 1) }) }

/-- The payout of one position in `resolve` (lines 172-178). -/
def payoutOf (winner : Winner) (position : Position) : ℚ :=
  match winner with
  | Winner.white => position.whiteTokens
  | Winner.black => position.blackTokens
  | Winner.draw => (position.whiteTokens + position.blackTokens) / 2

/-- `resolve` (lines 161-184): one-shot settlement; returns the updated
market and the fresh payout map built from the stored positions. -/
def resolve (m : PredictionMarket) (winner : Winner) :
    Except MarketError (PredictionMarket × List (String × ℚ)) :=
  if m.resolved then Except.error MarketError.alreadyResolved
  else
    let m1 := { m with resolved := true, winner := some winner }
    let payouts := m.positions.map (fun q => (q.1, payoutOf winner q.2))
    Except.ok (m1, payouts)

/-- `getPosition` (lines 186-188). -/
def getPosition (m : PredictionMarket) (userId : String) : Option Position :=
  mapGet m.positions userId

end PredictionMarket

/-- The HTTP position read (server entry file, `position || {...}`): the
stored position, defaulting to explicit zero balances when there is none. -/
def serverGetPosition (m : PredictionMarket) (userId : String) : Position :=
  (m.getPosition userId).getD
    { userId := userId, whiteTokens := 0, blackTokens := 0, totalSpent := 0 }

/-- Mutable state of `MarketManager` (lines 205-217). -/
structure MarketManager where
  markets : List (String × PredictionMarket)
deriving DecidableEq, Repr

namespace MarketManager

/-- `createMarket` (lines 208-212): builds a market and `set`s it into the
map (insert-or-replace, with no duplicate check), returning it. -/
def createMarket (mgr : MarketManager) (gameId : String)
    (initialLiquidity : ℚ) : MarketManager × PredictionMarket :=
  let market := PredictionMarket.create gameId initialLiquidity
  ({ markets := mapSet mgr.markets gameId market }, market)

/-- `getMarket` (lines 214-216). -/
def getMarket (mgr : MarketManager) (gameId : String) :
    Option PredictionMarket :=
  mapGet mgr.markets gameId

end MarketManager

/-- Market states reachable from creation with liquidity `L > 0` by
successful buys and resolution. -/
inductive Reachable (L : ℚ) : PredictionMarket → Prop where
  | create (gameId : String) (hL : 0 < L) :
      Reachable L (PredictionMarket.create gameId L)
  | buyWhiteStep (m m' : PredictionMarket) (u : String) (a t p : ℚ)
      (hm : Reachable L m) (h : m.buyWhite u a = Except.ok (m', t, p)) :
      Reachable L m'
  | buyBlackStep (m m' : PredictionMarket) (u : String) (a t p : ℚ)
      (hm : Reachable L m) (h : m.buyBlack u a = Except.ok (m', t, p)) :
      Reachable L m'
  | resolveStep (m m' : PredictionMarket) (w : Winner)
      (pays : List (String × ℚ))
      (hm : Reachable L m) (h : m.resolve w = Except.ok (m', pays)) :
      Reachable L m'

/-- All reachable markets have positive pools, an exact constant product,
and the invariant recorded at creation. -/
theorem reachable_inv {L : ℚ} {m : PredictionMarket} (h : Reachable L m) :
    0 < m.whitePool ∧ 0 < m.blackPool ∧
      m.whitePool * m.blackPool = m.k ∧ m.k = L * L := by
  induction h with
  | create gameId hL =>
      exact ⟨hL, hL, rfl, rfl⟩
  | buyWhiteStep m m' u a t p hm hstep ih =>
      obtain ⟨hW, hB, hprod, hk⟩ := ih
      by_cases hr : m.resolved
      · simp [PredictionMarket.buyWhite, hr] at hstep
      · by_cases ha : a ≤ 0
        · simp [PredictionMarket.buyWhite, hr, ha] at hstep
        · push_neg at ha
          simp [PredictionMarket.buyWhite, hr, not_le.mpr ha,
            PredictionMarket.calculateBuyWhite] at hstep
          obtain ⟨hm', -, -⟩ := hstep
          have hBa : (0:ℚ) < m.blackPool + a := by linarith
          have hKpos : (0:ℚ) < m.k := by
            rw [← hprod]; exact mul_pos hW hB
          subst hm'
          refine ⟨?_, ?_, ?_, hk⟩
          · exact div_pos hKpos hBa
          · exact hBa
          · exact div_mul_cancel₀ _ (ne_of_gt hBa)
  | buyBlackStep m m' u a t p hm hstep ih =>
      obtain ⟨hW, hB, hprod, hk⟩ := ih
      by_cases hr : m.resolved
      · simp [PredictionMarket.buyBlack, hr] at hstep
      · by_cases ha : a ≤ 0
        · simp [PredictionMarket.buyBlack, hr, ha] at hstep
        · push_neg at ha
          simp [PredictionMarket.buyBlack, hr, not_le.mpr ha,
            PredictionMarket.calculateBuyBlack] at hstep
          obtain ⟨hm', -, -⟩ := hstep
          have hWa : (0:ℚ) < m.whitePool + a := by linarith
          have hKpos : (0:ℚ) < m.k := by
            rw [← hprod]; exact mul_pos hW hB
          subst hm'
          refine ⟨hWa, ?_, ?_, hk⟩
          · exact div_pos hKpos hWa
          · show (m.whitePool + a) * (m.k / (m.whitePool + a)) = m.k
            rw [mul_comm]
            exact div_mul_cancel₀ _ (ne_of_gt hWa)
  | resolveStep m m' w pays hm hstep ih =>
      by_cases hr : m.resolved
      · simp [PredictionMarket.resolve, hr] at hstep
      · simp [PredictionMarket.resolve, hr] at hstep
        obtain ⟨hm', -⟩ := hstep
        subst hm'
        exact ih

/-- C1: every market created with liquidity `L > 0` keeps
`whitePool * blackPool` exactly equal (hence within any tolerance) to the
invariant `k = L * L` recorded at creation, after every successful buy
(and across resolution). -/
theorem c1_product_invariant {L : ℚ} {m : PredictionMarket}
    (h : Reachable L m) :
    m.whitePool * m.blackPool = m.k ∧ m.k = L * L :=
  ⟨(reachable_inv h).2.2.1, (reachable_inv h).2.2.2⟩

/-- The market reached from a fresh 1000-liquidity market by buying white
with 100 units: the concrete state used by the witnesses. -/
def mDemo : PredictionMarket :=
  { gameId := "g", whitePool := 10000/11, blackPool := 1100,
    k := 1000000,
    positions := [("u", { userId := "u", whiteTokens := 1000/11,
                          blackTokens := 0, totalSpent := 100 })],
    totalVolume := 100, resolved := false, winner := none }

/-- The one concrete buy step used by the witnesses. -/
theorem mDemo_reachable : Reachable 1000 mDemo :=
  Reachable.buyWhiteStep (PredictionMarket.create "g" 1000) mDemo "u" 100
    (1000/11) (121/221) (Reachable.create "g" (by norm_num))
    (by norm_num [PredictionMarket.buyWhite, PredictionMarket.create,
      PredictionMarket.calculateBuyWhite, PredictionMarket.getWhitePrice,
      mapGet, mapSet, mDemo])

/-- Witness for C1 at a concrete reachable state. -/
theorem c1_product_invariant_witness :
    mDemo.whitePool * mDemo.blackPool = mDemo.k ∧ mDemo.k = 1000 * 1000 :=
  c1_product_invariant mDemo_reachable

/-- C2: on every reachable market state the two quoted prices sum to
exactly 1 (hence within any rounding tolerance). -/
theorem c2_price_sum_one {L : ℚ} {m : PredictionMarket}
    (h : Reachable L m) :
    m.getWhitePrice + m.getBlackPrice = 1 := by
  obtain ⟨hW, hB, -, -⟩ := reachable_inv h
  have hs : m.whitePool + m.blackPool ≠ 0 := ne_of_gt (add_pos hW hB)
  rw [PredictionMarket.getWhitePrice, PredictionMarket.getBlackPrice,
    div_add_div_same, add_comm, div_self hs]

/-- Witness for C2 at a concrete reachable state. -/
theorem c2_price_sum_one_witness :
    mDemo.getWhitePrice + mDemo.getBlackPrice = 1 :=
  c2_price_sum_one mDemo_reachable

/-- Mapping a payout function over an association list commutes with
keyed lookup. -/
theorem find?_map_keyed (l : List (String × Position))
    (f : String × Position → ℚ) (u : String) :
    (l.map (fun q => (q.1, f q))).find? (fun q => q.1 == u) =
      (l.find? (fun q => q.1 == u)).map (fun q => (q.1, f q)) := by
  induction l with
  | nil => rfl
  | cons head tail ih =>
      by_cases hh : head.1 == u
      · simp [List.find?, hh]
      · simp [List.find?, hh, ih]

/-- C3: a successful `resolve` pays every stored position its winning-side
token balance at 1 per token (losing side at 0), and half of both
balances on a draw. -/
theorem c3_resolve_payout {m m' : PredictionMarket} {w : Winner}
    {pays : List (String × ℚ)} {u : String} {p : Position}
    (h : m.resolve w = Except.ok (m', pays))
    (hp : m.getPosition u = some p) :
    mapGet pays u = some (PredictionMarket.payoutOf w p) := by
  by_cases hr : m.resolved
  · simp [PredictionMarket.resolve, hr] at h
  · simp [PredictionMarket.resolve, hr] at h
    obtain ⟨-, hpays⟩ := h
    rw [PredictionMarket.getPosition, mapGet] at hp
    obtain ⟨q, hq, hq2⟩ : ∃ q, m.positions.find? (fun q => q.1 == u) = some q ∧
        q.2 = p := by
      cases hfind : m.positions.find? (fun q => q.1 == u) with
      | none => rw [hfind] at hp; simp at hp
      | some q => rw [hfind] at hp; simp at hp; exact ⟨q, rfl, hp⟩
    rw [mapGet, ← hpays, find?_map_keyed, hq]
    simp [hq2]

/-- Witness for C3: resolving the demo market for white pays the one
holder their white-token balance. -/
theorem c3_resolve_payout_witness :
    mapGet [("u", (1000/11 : ℚ))] "u" = some (1000/11 : ℚ) :=
  @c3_resolve_payout mDemo
    { mDemo with resolved := true, winner := some Winner.white }
    Winner.white [("u", (1000/11 : ℚ))] "u"
    { userId := "u", whiteTokens := 1000/11, blackTokens := 0,
      totalSpent := 100 }
    (by norm_num [PredictionMarket.resolve, mDemo, PredictionMarket.payoutOf])
    (by norm_num [PredictionMarket.getPosition, mDemo, mapGet, List.find?])

/-- Splitting a half-sum over a list of positions. -/
theorem sum_map_half_add (l : List (String × Position)) :
    (l.map (fun q => (q.2.whiteTokens + q.2.blackTokens) / 2)).sum =
      ((l.map (fun q => q.2.whiteTokens)).sum +
       (l.map (fun q => q.2.blackTokens)).sum) / 2 := by
  induction l with
  | nil => simp
  | cons head tail ih => simp [ih]; ring

/-- C4: total payout of a successful `resolve` equals the total winning
token balance held at resolution (and half of both totals on a draw). -/
theorem c4_settlement_conservation {m m' : PredictionMarket} {w : Winner}
    {pays : List (String × ℚ)}
    (h : m.resolve w = Except.ok (m', pays)) :
    (pays.map Prod.snd).sum =
      if w = Winner.white then (m.positions.map (fun q => q.2.whiteTokens)).sum
      else if w = Winner.black then
        (m.positions.map (fun q => q.2.blackTokens)).sum
      else
        ((m.positions.map (fun q => q.2.whiteTokens)).sum +
         (m.positions.map (fun q => q.2.blackTokens)).sum) / 2 := by
  by_cases hr : m.resolved
  · simp [PredictionMarket.resolve, hr] at h
  · simp [PredictionMarket.resolve, hr] at h
    obtain ⟨-, hpays⟩ := h
    rw [← hpays, List.map_map]
    cases w with
    | white => simp [Function.comp_def, PredictionMarket.payoutOf]
    | black => simp [Function.comp_def, PredictionMarket.payoutOf]
    | draw =>
        simp only [Function.comp_def, PredictionMarket.payoutOf]
        simp only [if_neg (by simp : ¬ Winner.draw = Winner.white),
          if_neg (by simp : ¬ Winner.draw = Winner.black)]
        exact sum_map_half_add m.positions

/-- Witness for C4: resolving the demo market as a draw pays half of the
total token balances. -/
theorem c4_settlement_conservation_witness :
    (([("u", (500/11 : ℚ))] : List (String × ℚ)).map Prod.snd).sum =
      ((mDemo.positions.map (fun q => q.2.whiteTokens)).sum +
       (mDemo.positions.map (fun q => q.2.blackTokens)).sum) / 2 :=
  @c4_settlement_conservation mDemo
    { mDemo with resolved := true, winner := some Winner.draw }
    Winner.draw [("u", (500/11 : ℚ))]
    (by norm_num [PredictionMarket.resolve, mDemo, PredictionMarket.payoutOf])

/-- C5: after one successful `resolve`, a second call fails with
`AlreadyResolved`, the market stays resolved, and the recorded winner is
the first call's outcome. -/
theorem c5_resolve_one_shot {m m' : PredictionMarket} {w1 : Winner}
    {pays : List (String × ℚ)}
    (h : m.resolve w1 = Except.ok (m', pays)) (w2 : Winner) :
    m'.resolve w2 = Except.error MarketError.alreadyResolved ∧
      m'.resolved = true ∧ m'.winner = some w1 := by
  by_cases hr : m.resolved
  · simp [PredictionMarket.resolve, hr] at h
  · simp [PredictionMarket.resolve, hr] at h
    obtain ⟨hm', -⟩ := h
    subst hm'
    exact ⟨by simp [PredictionMarket.resolve], rfl, rfl⟩

/-- The demo market after resolving for white. -/
def mDemoResolved : PredictionMarket :=
  { mDemo with resolved := true, winner := some Winner.white }

/-- Witness for C5 on the demo market. -/
theorem c5_resolve_one_shot_witness :
    mDemoResolved.resolve Winner.black =
        Except.error MarketError.alreadyResolved ∧
      mDemoResolved.resolved = true ∧
      mDemoResolved.winner = some Winner.white :=
  @c5_resolve_one_shot mDemo mDemoResolved Winner.white
    [("u", (1000/11 : ℚ))]
    (by norm_num [PredictionMarket.resolve, mDemo, mDemoResolved,
      PredictionMarket.payoutOf])
    Winner.black

/-- C10: a successful `resolve` changes only the `resolved` flag and the
`winner` field; pools, `k`, `totalVolume`, `gameId` and all stored
positions are untouched, and the payouts are a fresh list computed from
the stored positions. -/
theorem c10_resolve_frame {m m' : PredictionMarket} {w : Winner}
    {pays : List (String × ℚ)}
    (h : m.resolve w = Except.ok (m', pays)) :
    m'.whitePool = m.whitePool ∧ m'.blackPool = m.blackPool ∧
      m'.k = m.k ∧ m'.totalVolume = m.totalVolume ∧
      m'.positions = m.positions ∧ m'.gameId = m.gameId ∧
      m'.resolved = true ∧ m'.winner = some w ∧
      pays = m.positions.map (fun q => (q.1, PredictionMarket.payoutOf w q.2)) := by
  by_cases hr : m.resolved
  · simp [PredictionMarket.resolve, hr] at h
  · simp [PredictionMarket.resolve, hr] at h
    obtain ⟨hm', hpays⟩ := h
    subst hm'
    exact ⟨rfl, rfl, rfl, rfl, rfl, rfl, rfl, rfl, hpays.symm⟩

/-- Witness for C10 on the demo market. -/
theorem c10_resolve_frame_witness :
    mDemoResolved.whitePool = mDemo.whitePool ∧
      mDemoResolved.blackPool = mDemo.blackPool ∧
      mDemoResolved.k = mDemo.k ∧
      mDemoResolved.totalVolume = mDemo.totalVolume ∧
      mDemoResolved.positions = mDemo.positions ∧
      mDemoResolved.gameId = mDemo.gameId ∧
      mDemoResolved.resolved = true ∧
      mDemoResolved.winner = some Winner.white ∧
      [("u", (1000/11 : ℚ))] =
        mDemo.positions.map
          (fun q => (q.1, PredictionMarket.payoutOf Winner.white q.2)) :=
  @c10_resolve_frame mDemo mDemoResolved Winner.white
    [("u", (1000/11 : ℚ))]
    (by norm_num [PredictionMarket.resolve, mDemo, mDemoResolved,
      PredictionMarket.payoutOf])

/-- C6: a buy on a resolved market fails with `MarketResolved` (checked
first); a buy of a non-positive amount on an unresolved market fails with
`InvalidAmount`; these are the only failure cases.  In the embedding a
failing buy returns only the error, so pools, `k`, `totalVolume` and all
positions are left exactly unchanged, as in the source where both throws
happen before any mutation. -/
theorem c6_buy_failure (m : PredictionMarket) (u : String) (a : ℚ) :
    (m.resolved = true →
      m.buyWhite u a = Except.error MarketError.marketResolved ∧
      m.buyBlack u a = Except.error MarketError.marketResolved)
    ∧ (m.resolved = false → a ≤ 0 →
      m.buyWhite u a = Except.error MarketError.invalidAmount ∧
      m.buyBlack u a = Except.error MarketError.invalidAmount)
    ∧ (∀ e, m.buyWhite u a = Except.error e ∨
            m.buyBlack u a = Except.error e →
        (m.resolved = true ∧ e = MarketError.marketResolved) ∨
        (m.resolved = false ∧ a ≤ 0 ∧ e = MarketError.invalidAmount)) := by
  refine ⟨?_, ?_, ?_⟩
  · intro hr
    exact ⟨by simp [PredictionMarket.buyWhite, hr],
           by simp [PredictionMarket.buyBlack, hr]⟩
  · intro hr ha
    exact ⟨by simp [PredictionMarket.buyWhite, hr, ha],
           by simp [PredictionMarket.buyBlack, hr, ha]⟩
  · intro e he
    by_cases hr : m.resolved
    · left
      refine ⟨hr, ?_⟩
      rcases he with he | he <;>
        simpa [PredictionMarket.buyWhite, PredictionMarket.buyBlack, hr]
          using he.symm
    · right
      by_cases ha : a ≤ 0
      · refine ⟨by simpa using hr, ha, ?_⟩
        rcases he with he | he <;>
          simpa [PredictionMarket.buyWhite, PredictionMarket.buyBlack, hr, ha]
            using he.symm
      · exfalso
        rcases he with he | he <;>
          simp [PredictionMarket.buyWhite, PredictionMarket.buyBlack, hr, ha]
            at he

/-- Witness for C6: a buy on the resolved demo market and a zero-amount
buy on the unresolved demo market both fail as specified. -/
theorem c6_buy_failure_witness :
    mDemoResolved.buyWhite "u" 5 = Except.error MarketError.marketResolved ∧
      mDemo.buyWhite "u" 0 = Except.error MarketError.invalidAmount :=
  ⟨((c6_buy_failure mDemoResolved "u" 5).1 rfl).1,
   (((c6_buy_failure mDemo "u" 0).2.1 rfl) (le_refl 0)).1⟩

/-- C9: `getPosition` is a pure read: it returns the stored position when
one exists, `none` exactly when the participant has no stored position,
and the server read wrapper then supplies the explicit zero-balance
"no position" result.  Being a function of the market value, it cannot
change the positions map. -/
theorem c9_getPosition_read (m : PredictionMarket) (u : String) :
    (∀ p, m.getPosition u = some p → (u, p) ∈ m.positions)
    ∧ (m.getPosition u = none → ∀ q ∈ m.positions, q.1 ≠ u)
    ∧ (m.getPosition u = none →
        serverGetPosition m u =
          { userId := u, whiteTokens := 0, blackTokens := 0,
            totalSpent := 0 }) := by
  refine ⟨?_, ?_, ?_⟩
  · intro p hp
    rw [PredictionMarket.getPosition, mapGet] at hp
    cases hfind : m.positions.find? (fun q => q.1 == u) with
    | none => rw [hfind] at hp; simp at hp
    | some q =>
        rw [hfind] at hp
        simp at hp
        have hkey := List.find?_some hfind
        have hmem := List.mem_of_find?_eq_some hfind
        have : q = (u, p) := by
          obtain ⟨q1, q2⟩ := q
          simp at hkey hp
          simp [hkey, hp]
        rwa [this] at hmem
  · intro hnone q hq
    rw [PredictionMarket.getPosition, mapGet] at hnone
    cases hfind : m.positions.find? (fun q => q.1 == u) with
    | none =>
        have := List.find?_eq_none.mp hfind q hq
        simpa using this
    | some q2 => rw [hfind] at hnone; simp at hnone
  · intro hnone
    rw [serverGetPosition, hnone]
    rfl

/-- Witness for C9: the demo market's one holder is returned as stored,
and an unknown participant gets the explicit zero-balance result. -/
theorem c9_getPosition_read_witness :
    ("u", ({ userId := "u", whiteTokens := 1000/11, blackTokens := 0,
             totalSpent := 100 } : Position)) ∈ mDemo.positions ∧
      serverGetPosition mDemo "v" =
        { userId := "v", whiteTokens := 0, blackTokens := 0,
          totalSpent := 0 } :=
  ⟨(c9_getPosition_read mDemo "u").1 _
      (by norm_num [PredictionMarket.getPosition, mDemo, mapGet, List.find?]),
   (c9_getPosition_read mDemo "v").2.2 (by decide)⟩

/-- Keyed lookup of an association-list cons. -/
theorem mapGet_cons {α : Type} (u : String) (w : α)
    (rest : List (String × α)) (key : String) :
    mapGet ((u, w) :: rest) key =
      if u == key then some w else mapGet rest key := by
  by_cases h : u == key <;> simp [mapGet, List.find?, h]

/-- `Map.set` followed by `Map.get` of the same key returns the set value. -/
theorem mapGet_mapSet_self {α : Type} (l : List (String × α)) (key : String)
    (v : α) : mapGet (mapSet l key v) key = some v := by
  induction l with
  | nil => simp [mapSet, mapGet]
  | cons head tail ih =>
      obtain ⟨h1, h2⟩ := head
      by_cases hh : h1 == key
      · simp [mapSet, hh, mapGet, List.find?]
      · rw [mapSet]
        simp [hh, mapGet_cons, ih]

/-- C8 amended: `createMarket` performs no duplicate check and never
fails; it always constructs a market with both pools equal to the given
liquidity and invariant equal to its square, and stores it under the
event id, replacing any market already there. -/
theorem c8_createMarket_spec (mgr : MarketManager) (gameId : String)
    (L : ℚ) :
    (mgr.createMarket gameId L).2 = PredictionMarket.create gameId L ∧
      (mgr.createMarket gameId L).2.whitePool = L ∧
      (mgr.createMarket gameId L).2.blackPool = L ∧
      (mgr.createMarket gameId L).2.k = L * L ∧
      (mgr.createMarket gameId L).1.getMarket gameId =
        some (mgr.createMarket gameId L).2 := by
  refine ⟨rfl, rfl, rfl, rfl, ?_⟩
  rw [MarketManager.createMarket, MarketManager.getMarket]
  exact mapGet_mapSet_self mgr.markets gameId _

/-- A registry that already holds a market for event id "g". -/
def mgrDemo : MarketManager :=
  { markets := [("g", PredictionMarket.create "g" 1000)] }

/-- Counterexample for C8 as stated: creating a second market for the
same event id does not fail with `DuplicateEvent`; it succeeds and the
stored market is replaced by the new one. -/
theorem c8_counterexample :
    (mgrDemo.createMarket "g" 5).1.getMarket "g" =
        some (PredictionMarket.create "g" 5) ∧
      PredictionMarket.create "g" 5 ≠ PredictionMarket.create "g" 1000 := by
  constructor
  · norm_num [MarketManager.createMarket, MarketManager.getMarket, mgrDemo,
      mapSet, mapGet, List.find?]
  · intro h
    have : (PredictionMarket.create "g" 5).whitePool =
        (PredictionMarket.create "g" 1000).whitePool := by rw [h]
    norm_num [PredictionMarket.create] at this

/-- Successive levels have strictly increasing size. -/
def levelsSizeStrictMono (l : List OrderBookLevel) : Prop :=
  l.Pairwise (fun x y => x.size < y.size)

/-- Successive levels have non-decreasing price. -/
def levelsPriceMono (l : List OrderBookLevel) : Prop :=
  l.Pairwise (fun x y => x.price ≤ y.price)

/-- Successive levels have non-increasing price. -/
def levelsPriceAntitone (l : List OrderBookLevel) : Prop :=
  l.Pairwise (fun x y => y.price ≤ x.price)

/-- Counterexample for C7 as stated: on a fresh market with liquidity
1000, `getOrderBook 2 10` produces a whiteAsks list whose prices are
strictly decreasing, not non-decreasing. -/
theorem c7_counterexample :
    ¬ levelsPriceMono
        (((PredictionMarket.create "g" 1000).getOrderBook 2 10).whiteAsks) := by
  intro h
  have h2 : List.range 2 = [0, 1] := rfl
  have hlist : ((PredictionMarket.create "g" 1000).getOrderBook 2 10).whiteAsks
      = [{ price := -1/100, size := 10 }, { price := -1/50, size := 20 }] := by
    norm_num [PredictionMarket.getOrderBook, h2,
      PredictionMarket.calculateBuyBlack, PredictionMarket.create,
      PredictionMarket.getBlackPrice]
  rw [levelsPriceMono, hlist] at h
  have := (List.pairwise_cons.mp h).1 _ (List.mem_singleton.mpr rfl)
  norm_num at this

/-- On a constant-product state, the white buy simulation's average price
is `(blackPool + x) / whitePool`. -/
theorem avgPrice_white_eq (m : PredictionMarket) (_hW : 0 < m.whitePool)
    (hB : 0 < m.blackPool) (hk : m.k = m.whitePool * m.blackPool)
    (x : ℚ) (hx : 0 < x) :
    (m.calculateBuyWhite x).avgPrice = (m.blackPool + x) / m.whitePool := by
  have hBx : m.blackPool + x ≠ 0 := by positivity
  have hxne : x ≠ 0 := ne_of_gt hx
  show x / (m.whitePool - m.k / (m.blackPool + x)) = _
  rw [hk]
  have h1 : m.whitePool - m.whitePool * m.blackPool / (m.blackPool + x) =
      m.whitePool * x / (m.blackPool + x) := by
    field_simp
    ring
  rw [h1, div_div_eq_mul_div, mul_comm m.whitePool x,
    mul_div_mul_left _ _ hxne]

/-- On a constant-product state, the black buy simulation's average price
is `(whitePool + x) / blackPool`. -/
theorem avgPrice_black_eq (m : PredictionMarket) (hW : 0 < m.whitePool)
    (_hB : 0 < m.blackPool) (hk : m.k = m.whitePool * m.blackPool)
    (x : ℚ) (hx : 0 < x) :
    (m.calculateBuyBlack x).avgPrice = (m.whitePool + x) / m.blackPool := by
  have hWx : m.whitePool + x ≠ 0 := by positivity
  have hxne : x ≠ 0 := ne_of_gt hx
  show x / (m.blackPool - m.k / (m.whitePool + x)) = _
  rw [hk]
  have h1 : m.blackPool - m.whitePool * m.blackPool / (m.whitePool + x) =
      m.blackPool * x / (m.whitePool + x) := by
    field_simp
    ring
  rw [h1, div_div_eq_mul_div, mul_comm m.blackPool x,
    mul_div_mul_left _ _ hxne]

/-- C7 amended: on a fixed constant-product market state with positive
pools, the buy simulation's average price is non-decreasing in the spend;
hence every `getOrderBook` level list has strictly increasing sizes, the
two bid lists have non-decreasing prices, but the two ask lists (built as
`1 - opposite avgPrice`) have non-increasing prices. -/
theorem c7_amended (m : PredictionMarket) (hW : 0 < m.whitePool)
    (hB : 0 < m.blackPool) (hk : m.k = m.whitePool * m.blackPool)
    (depth : ℕ) (s : ℚ) (hs : 0 < s) :
    (∀ x y : ℚ, 0 < x → x ≤ y →
      (m.calculateBuyWhite x).avgPrice ≤ (m.calculateBuyWhite y).avgPrice ∧
      (m.calculateBuyBlack x).avgPrice ≤ (m.calculateBuyBlack y).avgPrice) ∧
      levelsSizeStrictMono ((m.getOrderBook depth s).whiteBids) ∧
      levelsSizeStrictMono ((m.getOrderBook depth s).whiteAsks) ∧
      levelsSizeStrictMono ((m.getOrderBook depth s).blackBids) ∧
      levelsSizeStrictMono ((m.getOrderBook depth s).blackAsks) ∧
      levelsPriceMono ((m.getOrderBook depth s).whiteBids) ∧
      levelsPriceMono ((m.getOrderBook depth s).blackBids) ∧
      levelsPriceAntitone ((m.getOrderBook depth s).whiteAsks) ∧
      levelsPriceAntitone ((m.getOrderBook depth s).blackAsks) := by
  have hamt : ∀ j : ℕ, 0 < s * ((j : ℚ) + 1) := by
    intro j
    positivity
  have hle : ∀ a b : ℕ, a < b → s * ((a : ℚ) + 1) ≤ s * ((b : ℚ) + 1) := by
    intro a b hab
    have hcast : ((a : ℚ) + 1) ≤ ((b : ℚ) + 1) := by
      have : (a : ℚ) ≤ (b : ℚ) := by exact_mod_cast le_of_lt hab
      linarith
    exact mul_le_mul_of_nonneg_left hcast (le_of_lt hs)
  have hlt : ∀ a b : ℕ, a < b → s * ((a : ℚ) + 1) < s * ((b : ℚ) + 1) := by
    intro a b hab
    have hcast : ((a : ℚ) + 1) < ((b : ℚ) + 1) := by
      have : (a : ℚ) < (b : ℚ) := by exact_mod_cast hab
      linarith
    exact mul_lt_mul_of_pos_left hcast hs
  have hwmono : ∀ x y : ℚ, 0 < x → x ≤ y →
      (m.calculateBuyWhite x).avgPrice ≤ (m.calculateBuyWhite y).avgPrice := by
    intro x y hx hxy
    have hy : 0 < y := lt_of_lt_of_le hx hxy
    rw [avgPrice_white_eq m hW hB hk x hx, avgPrice_white_eq m hW hB hk y hy]
    exact (div_le_div_iff_of_pos_right hW).mpr (by linarith)
  have hbmono : ∀ x y : ℚ, 0 < x → x ≤ y →
      (m.calculateBuyBlack x).avgPrice ≤ (m.calculateBuyBlack y).avgPrice := by
    intro x y hx hxy
    have hy : 0 < y := lt_of_lt_of_le hx hxy
    rw [avgPrice_black_eq m hW hB hk x hx, avgPrice_black_eq m hW hB hk y hy]
    exact (div_le_div_iff_of_pos_right hB).mpr (by linarith)
  have hmap : ∀ (g : ℕ → OrderBookLevel)
      (S : OrderBookLevel → OrderBookLevel → Prop),
      (∀ a b : ℕ, a < b → S (g a) (g b)) →
      ((List.range depth).map g).Pairwise S := by
    intro g S hgs
    exact List.pairwise_map.mpr
      ((List.pairwise_lt_range depth).imp (fun hab => hgs _ _ hab))
  simp only [levelsSizeStrictMono, levelsPriceMono, levelsPriceAntitone,
    PredictionMarket.getOrderBook]
  refine ⟨fun x y hx hxy => ⟨hwmono x y hx hxy, hbmono x y hx hxy⟩,
    hmap _ _ (fun a b hab => hlt a b hab),
    hmap _ _ (fun a b hab => hlt a b hab),
    hmap _ _ (fun a b hab => hlt a b hab),
    hmap _ _ (fun a b hab => hlt a b hab),
    hmap _ _ (fun a b hab => hwmono _ _ (hamt a) (hle a b hab)),
    hmap _ _ (fun a b hab => hbmono _ _ (hamt a) (hle a b hab)),
    hmap (fun (j : ℕ) =>
      { price := 1 - (m.calculateBuyBlack (s * ((j : ℚ) + 1))).avgPrice,
        size := s * ((j : ℚ) + 1) }) (fun x y => y.price ≤ x.price)
      (fun a b hab => by
        have h := hbmono _ _ (hamt a) (hle a b hab)
        show (1 : ℚ) - (m.calculateBuyBlack (s * ((b : ℚ) + 1))).avgPrice ≤
          1 - (m.calculateBuyBlack (s * ((a : ℚ) + 1))).avgPrice
        linarith),
    hmap (fun (j : ℕ) =>
      { price := 1 - (m.calculateBuyWhite (s * ((j : ℚ) + 1))).avgPrice,
        size := s * ((j : ℚ) + 1) }) (fun x y => y.price ≤ x.price)
      (fun a b hab => by
        have h := hwmono _ _ (hamt a) (hle a b hab)
        show (1 : ℚ) - (m.calculateBuyWhite (s * ((b : ℚ) + 1))).avgPrice ≤
          1 - (m.calculateBuyWhite (s * ((a : ℚ) + 1))).avgPrice
        linarith)⟩

/-- Witness for the amended C7 on the demo market with `depth = 2`,
`stepSize = 10`. -/
theorem c7_amended_witness :
    (∀ x y : ℚ, 0 < x → x ≤ y →
      (mDemo.calculateBuyWhite x).avgPrice ≤
          (mDemo.calculateBuyWhite y).avgPrice ∧
        (mDemo.calculateBuyBlack x).avgPrice ≤
          (mDemo.calculateBuyBlack y).avgPrice) ∧
      levelsSizeStrictMono ((mDemo.getOrderBook 2 10).whiteBids) ∧
      levelsSizeStrictMono ((mDemo.getOrderBook 2 10).whiteAsks) ∧
      levelsSizeStrictMono ((mDemo.getOrderBook 2 10).blackBids) ∧
      levelsSizeStrictMono ((mDemo.getOrderBook 2 10).blackAsks) ∧
      levelsPriceMono ((mDemo.getOrderBook 2 10).whiteBids) ∧
      levelsPriceMono ((mDemo.getOrderBook 2 10).blackBids) ∧
      levelsPriceAntitone ((mDemo.getOrderBook 2 10).whiteAsks) ∧
      levelsPriceAntitone ((mDemo.getOrderBook 2 10).blackAsks) :=
  c7_amended mDemo (by norm_num [mDemo]) (by norm_num [mDemo])
    (by norm_num [mDemo]) 2 10 (by norm_num)
